import Mathlib

/-!
Verification of the isoform-collapsing core of pbtranscript.

Shallow embedding of:
  * `pbtranscript/collapsing/common.py` (class `CollapsedFiles`),
  * `pbtranscript/collapsing/CollapseIsoforms.py` (classes `Branch` and
    `CollapseIsoformsRunner`),
and, where the repository snapshot does not include the helper modules
(`pbtranscript.io.iter_gmap_sam`, `pbtranscript.collapsing.CollapsingUtils`
with `collapse_sam_records`, `collapse_fuzzy_junctions`, `pick_rep`,
`pbtranscript.Utils.ln`, `ContigSetReaderWrapper`), models of those helpers
written from the specification document.

File contents are modelled symbolically: an output artifact is the Lean value
that would be serialized into it, and `ln src dst` makes `dst` hold exactly
the content of `src`.
-/

namespace PbTranscript

/-! ## common.py : CollapsedFiles -/

/-- Embeds `CollapsedFiles.__init__` of `pbtranscript/collapsing/common.py`:
the object holds an output file name stem (`prefix` in the source) and the
`allow_extra_5exon` flag. -/
structure CollapsedFiles where
  pfx : String
  allow_extra_5exon : Bool

namespace CollapsedFiles

/-- Embeds the `has_5merge_str` property of `common.py`. -/
def has_5merge_str (cf : CollapsedFiles) : String :=
  if cf.allow_extra_5exon then "5merge" else "no5merge"

/-- Embeds the `_collapsed_prefix` property of `common.py`:
`"%s.%s.collapsed" % (self.prefix, self.has_5merge_str)`. -/
def collapsedPfx (cf : CollapsedFiles) : String :=
  cf.pfx ++ "." ++ cf.has_5merge_str ++ ".collapsed"

/-- Embeds `CollapsedFiles.rep_fn`.  The Python method asserts
`suffix in ("fasta", "fastq", "contigset.xml")` and then returns
`"%s.rep.%s" % (self._collapsed_prefix, suffix)`; a failed assertion is
modelled as `none`. -/
def rep_fn (cf : CollapsedFiles) (sfx : String) : Option String :=
  if sfx = "fasta" ∨ sfx = "fastq" ∨ sfx = "contigset.xml" then
    some (cf.collapsedPfx ++ ".rep." ++ sfx)
  else
    none

/-- Embeds the `gff_fn` property of `common.py`. -/
def gff_fn (cf : CollapsedFiles) : String := cf.collapsedPfx ++ ".gff"

/-- Embeds the `good_gff_fn` property of `common.py`. -/
def good_gff_fn (cf : CollapsedFiles) : String := cf.collapsedPfx ++ ".good.gff"

/-- Embeds the `bad_gff_fn` property of `common.py`. -/
def bad_gff_fn (cf : CollapsedFiles) : String := cf.collapsedPfx ++ ".bad.gff"

/-- Embeds the `group_fn` property of `common.py`. -/
def group_fn (cf : CollapsedFiles) : String := cf.collapsedPfx ++ ".group.txt"

/-- Embeds the `ignored_ids_txt_fn` property of `common.py`. -/
def ignored_ids_txt_fn (cf : CollapsedFiles) : String :=
  cf.collapsedPfx ++ ".ignored_ids.txt"

/-- Embeds the `good_fuzzy_gff_fn` property of `common.py`. -/
def good_fuzzy_gff_fn (cf : CollapsedFiles) : String := cf.good_gff_fn ++ ".fuzzy"

/-- Embeds the `good_unfuzzy_gff_fn` property of `common.py`. -/
def good_unfuzzy_gff_fn (cf : CollapsedFiles) : String := cf.good_gff_fn ++ ".unfuzzy"

/-- Embeds the `bad_fuzzy_gff_fn` property of `common.py`. -/
def bad_fuzzy_gff_fn (cf : CollapsedFiles) : String := cf.bad_gff_fn ++ ".fuzzy"

/-- Embeds the `bad_unfuzzy_gff_fn` property of `common.py`. -/
def bad_unfuzzy_gff_fn (cf : CollapsedFiles) : String := cf.bad_gff_fn ++ ".unfuzzy"

/-- Embeds the `fuzzy_group_fn` property of `common.py`. -/
def fuzzy_group_fn (cf : CollapsedFiles) : String := cf.group_fn ++ ".fuzzy"

/-- Embeds the `unfuzzy_group_fn` property of `common.py`. -/
def unfuzzy_group_fn (cf : CollapsedFiles) : String := cf.group_fn ++ ".unfuzzy"

end CollapsedFiles

/-! ## Alignment records and the alignment stream reader

The repository snapshot does not include `pbtranscript/io` (in particular
`iter_gmap_sam`), so the reader is modelled from the specification
(spec section 4.1 "Alignment Stream Reader" and section 3 "Data Model"). -/

/-- Modelled from the spec: an `AlignmentRecord` (spec section 3), one
alignment of a query isoform against the reference, as consumed from the
sorted GMAP SAM stream.  `strand = true` stands for the plus strand.  The
exon chain is a list of reference-coordinate half-open intervals, coverage
and identity are the fractions already computed upstream. -/
structure SamRecord where
  qID : String
  rID : String
  strand : Bool
  rStart : Nat
  rEnd : Nat
  chain : List (Nat × Nat)
  coverage : ℚ
  identity : ℚ
  deriving Repr, DecidableEq, Inhabited

/-- Sort key of a record in the stream: (reference id, reference start). -/
def samKey (r : SamRecord) : String × Nat := (r.rID, r.rStart)

/-- Strict lexicographic order on reference ids, decided over the
underlying character lists. -/
def strLt (a b : String) : Bool := decide (a.data < b.data)

/-- Strict order on stream keys: lexicographic on (reference id, start). -/
def keyLt (a b : String × Nat) : Bool :=
  strLt a.1 b.1 || (decide (a.1 = b.1) && decide (a.2 < b.2))

/-- Modelled from the spec: the coverage/identity filter of `iter_gmap_sam`
("if coverage < min_aln_coverage or identity < min_aln_identity, append its
id to the IgnoredRecord list and discard it", spec section 4.1).  `true`
means the record is kept. -/
def passesFilter (minCov minId : ℚ) (r : SamRecord) : Bool :=
  decide (minCov ≤ r.coverage) && decide (minId ≤ r.identity)

/-- Error raised by the reader on out-of-order input (spec section 4.1). -/
inductive ReaderError where
  | UnsortedInputError
  deriving Repr, DecidableEq

/-- An open overlap group in the reader: reference id, maximal reference end
seen so far, and the member records in arrival order. -/
structure OpenGroup where
  gID : String
  gMaxEnd : Nat
  members : List SamRecord
  deriving Repr, DecidableEq

/-- Reader output: the overlap groups in stream order and the ignored query
ids in encounter order. -/
structure ReaderOut where
  groups : List (List SamRecord)
  ignored : List String
  deriving Repr, DecidableEq

/-- Flush an optional open group at the end of the stream. -/
def flushOpen : Option OpenGroup → List (List SamRecord)
  | none => []
  | some og => [og.members]

/-- Whether a kept record's key precedes the previous emitted record's key
(no previous record means in order). -/
def outOfOrder (pk : Option (String × Nat)) (k : String × Nat) : Bool :=
  match pk with
  | some p => keyLt k p
  | none => false

/-- Prepend a flushed overlap group to the reader result downstream. -/
def groupFlush (g : List SamRecord) (x : Except ReaderError ReaderOut) :
    Except ReaderError ReaderOut :=
  match x with
  | .error e => .error e
  | .ok out => .ok ⟨g :: out.groups, out.ignored⟩

/-- Prepend an ignored query id to the reader result downstream. -/
def ignoredCons (q : String) (x : Except ReaderError ReaderOut) :
    Except ReaderError ReaderOut :=
  match x with
  | .error e => .error e
  | .ok out => .ok ⟨out.groups, q :: out.ignored⟩

/-- Modelled from the spec: the recursive worker of `iter_gmap_sam`
(spec section 4.1).  For each record: filter by coverage/identity (ignored
records are recorded and discarded before grouping); a kept record whose
(reference id, start) key is smaller than the previous kept record's raises
`UnsortedInputError`; otherwise the record joins the open overlap group when
it is on the same reference and starts before the group's current max end,
else the open group is flushed and a new one opened.  A final flush emits
the still-open group. -/
def readAux (minCov minId : ℚ) :
    List SamRecord → Option (String × Nat) → Option OpenGroup →
    Except ReaderError ReaderOut
  | [], _, og => .ok ⟨flushOpen og, []⟩
  | r :: rest, prevKey, og =>
    if passesFilter minCov minId r then
      if outOfOrder prevKey (samKey r) then
        .error .UnsortedInputError
      else
        match og with
        | none =>
          readAux minCov minId rest (some (samKey r))
            (some ⟨r.rID, r.rEnd, [r]⟩)
        | some g =>
          if r.rID = g.gID ∧ r.rStart < g.gMaxEnd then
            readAux minCov minId rest (some (samKey r))
              (some ⟨g.gID, max g.gMaxEnd r.rEnd, g.members ++ [r]⟩)
          else
            groupFlush g.members (readAux minCov minId rest (some (samKey r))
              (some ⟨r.rID, r.rEnd, [r]⟩))
    else
      ignoredCons r.qID (readAux minCov minId rest prevKey og)

/-- Modelled from the spec: `iter_gmap_sam` (spec section 4.1), consuming the
whole sorted record stream and producing overlap groups plus ignored ids. -/
def iter_gmap_sam (minCov minId : ℚ) (rs : List SamRecord) :
    Except ReaderError ReaderOut :=
  readAux minCov minId rs none none

/-- The keys of the records that pass the coverage/identity filter, in
stream order: the reader checks sortedness over exactly these. -/
def emittedKeys (minCov minId : ℚ) (rs : List SamRecord) : List (String × Nat) :=
  (rs.filter (passesFilter minCov minId)).map samKey

/-- A key list is sorted (non-decreasing) when no adjacent pair descends. -/
def keysSorted : List (String × Nat) → Bool
  | [] => true
  | [_] => true
  | a :: b :: rest => !keyLt b a && keysSorted (b :: rest)

/-- Sortedness of a key list continued from an optional previous key. -/
def keysSortedFrom : Option (String × Nat) → List (String × Nat) → Bool
  | none, l => keysSorted l
  | some k, l => keysSorted (k :: l)

/-- The member records of an optional open group. -/
def ogMembers : Option OpenGroup → List SamRecord
  | none => []
  | some g => g.members

/-! ## Unfuzzy collapsing engine

`collapse_sam_records` lives in `pbtranscript/collapsing/CollapsingUtils.py`,
which is not in the repository snapshot; it is modelled from the
specification (spec section 4.3 "Unfuzzy Collapsing Engine").  The model
elides the per-member 5-prime-truncation tag, which no claim mentions. -/

/-- The internal junction list of an exon chain: the (donor, acceptor)
coordinate pairs between consecutive exons (spec section 3, ExonChain). -/
def junctions : List (Nat × Nat) → List (Nat × Nat)
  | [] => []
  | [_] => []
  | a :: b :: rest => (a.2, b.1) :: junctions (b :: rest)

/-- Absolute distance between two reference coordinates. -/
def natDist (a b : Nat) : Nat := max a b - min a b

/-- Start of the first exon of a chain (0 for an empty chain). -/
def chainStart (c : List (Nat × Nat)) : Nat := (c.headD (0, 0)).1

/-- End of the last exon of a chain (0 for an empty chain). -/
def chainEnd (c : List (Nat × Nat)) : Nat := (c.getLastD (0, 0)).2

/-- Modelled from the spec: exact structural match of two exon chains
(spec section 4.3): same number of exons, identical internal junction
coordinates, and the outermost 5-prime and 3-prime boundaries within
`tolerate_end` bases. -/
def exactMatch (tolEnd : Nat) (a b : List (Nat × Nat)) : Bool :=
  decide (a.length = b.length) && decide (junctions a = junctions b) &&
  decide (natDist (chainStart a) (chainStart b) ≤ tolEnd) &&
  decide (natDist (chainEnd a) (chainEnd b) ≤ tolEnd)

/-- Modelled from the spec: 5-prime-containment match (spec section 4.3),
only meaningful when `allow_extra_5exon` is enabled: chain `a`'s junction
structure is a 3-prime-anchored suffix of chain `b`'s (so `a` is missing one
or more 5-prime exons or has a truncated first exon), with the shared
3-prime boundary within `tolerate_end`.  When `skip_5_exon_alt` is set, an
alternative first exon — one extending strictly 5-prime of the matching
exon of the longer chain — is rejected as structurally distinct. -/
def suffixMatch (skip5alt : Bool) (tolEnd : Nat) (a b : List (Nat × Nat)) : Bool :=
  decide (a.length < b.length) &&
  decide ((junctions b).drop ((junctions b).length - (junctions a).length)
            = junctions a) &&
  decide (natDist (chainEnd a) (chainEnd b) ≤ tolEnd) &&
  (!skip5alt ||
    decide (((b.drop (b.length - a.length)).headD (0, 0)).1 ≤ chainStart a))

/-- Modelled from the spec: structural compatibility of two exon chains in
the unfuzzy engine (spec section 4.3): an exact match, or — when
`allow_extra_5exon` holds — a 5-prime containment in either direction. -/
def compatible (allow5 skip5alt : Bool) (tolEnd : Nat)
    (a b : List (Nat × Nat)) : Bool :=
  exactMatch tolEnd a b ||
  (allow5 && (suffixMatch skip5alt tolEnd a b || suffixMatch skip5alt tolEnd b a))

/-- Modelled from the spec: the "most complete" of two compatible chains
(spec section 4.3: "using the most complete (longest, most 5-prime-extended)
compatible chain observed"): more exons wins, then the wider span. -/
def moreComplete (a b : List (Nat × Nat)) : List (Nat × Nat) :=
  if b.length < a.length then a
  else if a.length < b.length then b
  else if chainStart b < chainStart a ∨ chainEnd a < chainEnd b then b
  else a

/-- An equivalence class under construction inside one overlap group: the
current representative chain and the member query ids in discovery order. -/
structure CollapseClass where
  chain : List (Nat × Nat)
  members : List String
  deriving Repr, DecidableEq

/-- Modelled from the spec: fold one record into the classes discovered so
far — join the first structurally compatible class (updating its
representative chain to the more complete one), or open a new class at the
end (discovery order, spec section 4.3). -/
def insertRec (allow5 skip5alt : Bool) (tolEnd : Nat) :
    List CollapseClass → SamRecord → List CollapseClass
  | [], r => [⟨r.chain, [r.qID]⟩]
  | c :: cs, r =>
    if compatible allow5 skip5alt tolEnd r.chain c.chain then
      ⟨moreComplete c.chain r.chain, c.members ++ [r.qID]⟩ :: cs
    else
      c :: insertRec allow5 skip5alt tolEnd cs r

/-- Modelled from the spec: partition an overlap group's records into
structural-equivalence classes, in discovery order. -/
def buildClasses (allow5 skip5alt : Bool) (tolEnd : Nat)
    (recs : List SamRecord) : List CollapseClass :=
  recs.foldl (insertRec allow5 skip5alt tolEnd) []

/-- A collapsed transcript candidate (spec section 3, CollapsedCandidate):
the sequential id `(cuff index, within-group index)`, location, the
representative exon chain, the member query ids, and the good/bad flag. -/
structure Candidate where
  idx : Nat × Nat
  rID : String
  strand : Bool
  chain : List (Nat × Nat)
  members : List String
  good : Bool
  deriving Repr, DecidableEq

/-- Strict order on candidate ids: lexicographic on
(cuff index, within-group index). -/
def idxLt (a b : Nat × Nat) : Prop :=
  a.1 < b.1 ∨ (a.1 = b.1 ∧ a.2 < b.2)

/-- Number the classes of one overlap group into candidates, the
within-group index counting up from `j`; a candidate is good exactly when
its member count reaches `covT` (spec section 4.3). -/
def numberClasses (cuff covT : Nat) (rid : String) (strand : Bool) :
    Nat → List CollapseClass → List Candidate
  | _, [] => []
  | j, c :: cs =>
    ⟨(cuff, j), rid, strand, c.chain, c.members, decide (covT ≤ c.members.length)⟩
      :: numberClasses cuff covT rid strand (j + 1) cs

/-- Modelled from the spec: `collapse_sam_records` of `CollapsingUtils.py`
(spec section 4.3): collapse one group of overlapping same-strand records
into candidates numbered `(cuff_index, 1), (cuff_index, 2), …` in discovery
order, each good iff its member count is at least `cov_threshold`. -/
def collapse_sam_records (cuff covT : Nat) (allow5 skip5alt : Bool)
    (tolEnd : Nat) (recs : List SamRecord) : List Candidate :=
  numberClasses cuff covT ((recs.headD default).rID) ((recs.headD default).strand)
    1 (buildClasses allow5 skip5alt tolEnd recs)

/-! ## Branch.run -/

/-- In `Branch.run`, `iter_gmap_sam` yields the records of one locus keyed
by strand and the loop runs over `recs.itervalues()`; this splits a flushed
overlap group into its per-strand record lists. -/
def strandGroups (g : List SamRecord) : List (List SamRecord) :=
  [g.filter (fun r => r.strand), g.filter (fun r => !r.strand)]

/-- The per-group loop body of `Branch.run`
(`CollapseIsoforms.py` lines 88–106): `cuff_index` starts at 1 and advances
once per non-empty record group; each non-empty group is collapsed with the
current `cuff_index`. -/
def branchLoop (covT : Nat) (allow5 skip5alt : Bool) (tolEnd : Nat) :
    List (List SamRecord) → Nat → List Candidate
  | [], _ => []
  | g :: gs, cuff =>
    if 0 < g.length then
      collapse_sam_records cuff covT allow5 skip5alt tolEnd g ++
        branchLoop covT allow5 skip5alt tolEnd gs (cuff + 1)
    else
      branchLoop covT allow5 skip5alt tolEnd gs cuff

/-- Output of `Branch.run`: the emitted candidates in emission order and the
ignored query ids. -/
structure BranchOut where
  cands : List Candidate
  ignored : List String
  deriving Repr, DecidableEq

/-- The good-GFF stream of `Branch.run`: candidates routed to
`good_gff_writer`. -/
def BranchOut.goodCands (o : BranchOut) : List Candidate :=
  o.cands.filter (fun c => c.good)

/-- The bad-GFF stream of `Branch.run`: candidates routed to
`bad_gff_writer`. -/
def BranchOut.badCands (o : BranchOut) : List Candidate :=
  o.cands.filter (fun c => !c.good)

/-- The group file of `Branch.run`: membership of the good candidates,
keyed by candidate id. -/
def BranchOut.groups (o : BranchOut) : List ((Nat × Nat) × List String) :=
  o.goodCands.map (fun c => (c.idx, c.members))

/-- Embeds `Branch.run` (`CollapseIsoforms.py` lines 73–111): stream the
sorted SAM records through `iter_gmap_sam` (which writes ignored ids), then
collapse each non-empty per-strand record group with a `cuff_index` counter
starting at 1. -/
def Branch.run (minCov minId : ℚ) (covT : Nat) (allow5 skip5alt : Bool)
    (tolEnd : Nat) (rs : List SamRecord) : Except ReaderError BranchOut :=
  match iter_gmap_sam minCov minId rs with
  | .error e => .error e
  | .ok out =>
    .ok ⟨branchLoop covT allow5 skip5alt tolEnd
          ((out.groups.map strandGroups).flatten) 1,
        out.ignored⟩

/-! ## Fuzzy-junction merger

`collapse_fuzzy_junctions` lives in `CollapsingUtils.py`, not in the
repository snapshot; modelled from the specification (spec section 4.4). -/

/-- Every corresponding internal junction coordinate within `tol` bases. -/
def junctionsWithin (tol : Nat) : List (Nat × Nat) → List (Nat × Nat) → Bool
  | [], [] => true
  | (a, b) :: xs, (c, d) :: ys =>
    decide (natDist a c ≤ tol) && decide (natDist b d ≤ tol) &&
      junctionsWithin tol xs ys
  | _, _ => false

/-- Modelled from the spec: merge eligibility of two good candidates in the
fuzzy stage (spec section 4.4): same reference id and strand, same exon
count, and every corresponding internal junction within `max_fuzzy_junction`
bases; the outer boundaries are not constrained here. -/
def fuzzyMatch (tol : Nat) (a b : Candidate) : Bool :=
  decide (a.rID = b.rID) && decide (a.strand = b.strand) &&
  decide (a.chain.length = b.chain.length) &&
  junctionsWithin tol (junctions a.chain) (junctions b.chain)

/-- Modelled from the spec: fold one candidate into the fuzzy-merged set —
union into the first merge-eligible entry (keeping the first-seen id,
replacing the chain by the more complete one, appending the members so each
merged group lists its original members in source-candidate emission order),
or append as a new entry. -/
def insertFuzzy (tol : Nat) : List Candidate → Candidate → List Candidate
  | [], c => [c]
  | e :: es, c =>
    if fuzzyMatch tol e c then
      ⟨e.idx, e.rID, e.strand, moreComplete e.chain c.chain,
        e.members ++ c.members, e.good⟩ :: es
    else
      e :: insertFuzzy tol es c

/-- Modelled from the spec: `collapse_fuzzy_junctions` of
`CollapsingUtils.py` (spec section 4.4): second pass over the good
candidates in id order, merging candidates whose junctions agree within
`max_fuzzy_junction`; returns the merged good GFF candidates and the
re-keyed membership map. -/
def collapse_fuzzy_junctions (tol : Nat) (goodCands : List Candidate) :
    List Candidate × List ((Nat × Nat) × List String) :=
  let merged := goodCands.foldl (insertFuzzy tol) []
  (merged, merged.map (fun c => (c.idx, c.members)))

/-! ## Representative picker

`pick_rep` lives in `CollapsingUtils.py`, not in the repository snapshot;
modelled from the specification (spec section 4.5).  The spec leaves the
exact least-discrepancy metric open (spec section 9); each member therefore
carries its already-computed discrepancy value `err`. -/

/-- A group member as seen by the picker: query id, query sequence length,
and the boundary-discrepancy value against the group's representative
chain. -/
structure RepMember where
  qid : String
  len : Nat
  err : Nat
  deriving Repr, DecidableEq

/-- Modelled from the spec: strict "strictly better" comparison between two
group members (spec section 4.5).  With `pickLeastErr` set, smaller
discrepancy wins; otherwise greater query length wins; under either policy
ties are broken by the lexicographically smallest query id. -/
def betterRep (pickLeastErr : Bool) (a b : RepMember) : Bool :=
  if pickLeastErr then
    decide (a.err < b.err) || (decide (a.err = b.err) && strLt a.qid b.qid)
  else
    decide (b.len < a.len) || (decide (a.len = b.len) && strLt a.qid b.qid)

/-- Modelled from the spec: select the best member of a group under the
chosen policy; `none` only for an empty group. -/
def pickBest (pickLeastErr : Bool) : List RepMember → Option RepMember
  | [] => none
  | m :: ms => some (ms.foldl (fun acc x => if betterRep pickLeastErr x acc then x else acc) m)

/-- Errors of the representative picker (spec section 4.5). -/
inductive PickError where
  | EmptyGroupError
  | MissingSequenceError (qid : String)
  deriving Repr, DecidableEq

/-- Look a query id up in the isoform sequence collection (spec section 4.5:
a missing id is a fatal `MissingSequenceError`). -/
def lookupMember (env : List RepMember) (qid : String) :
    Except PickError RepMember :=
  match env.find? (fun m => m.qid = qid) with
  | some m => .ok m
  | none => .error (.MissingSequenceError qid)

/-- Resolve every member id of a group against the isoform collection,
failing on the first missing id. -/
def lookupMembers (env : List RepMember) : List String →
    Except PickError (List RepMember)
  | [] => .ok []
  | q :: qs =>
    match lookupMember env q with
    | .error e => .error e
    | .ok m =>
      match lookupMembers env qs with
      | .error e => .error e
      | .ok ms => .ok (m :: ms)

/-- Modelled from the spec: pick the representative of one final group
(spec section 4.5): resolve each member id against the isoform collection,
then select under the policy; a zero-member group is a fatal
`EmptyGroupError`. -/
def pick_rep_one (env : List RepMember) (pickLeastErr : Bool)
    (g : (Nat × Nat) × List String) : Except PickError RepMember :=
  match lookupMembers env g.2 with
  | .error e => .error e
  | .ok ms =>
    match pickBest pickLeastErr ms with
    | none => .error .EmptyGroupError
    | some m => .ok m

/-- Modelled from the spec: `pick_rep` of `CollapsingUtils.py`
(spec section 4.5): one representative per final good group, in group
order. -/
def pick_rep (env : List RepMember) (pickLeastErr : Bool) :
    List ((Nat × Nat) × List String) →
    Except PickError (List ((Nat × Nat) × RepMember))
  | [] => .ok []
  | g :: gs =>
    match pick_rep_one env pickLeastErr g with
    | .error e => .error e
    | .ok m =>
      match pick_rep env pickLeastErr gs with
      | .error e => .error e
      | .ok reps => .ok ((g.1, m) :: reps)

/-! ## CollapseIsoformsRunner

Embeds `CollapseIsoformsRunner` of `CollapseIsoforms.py` (lines 114–251).
File outputs are modelled symbolically: each output artifact of the run is a
field of `RunnerResult` holding the value that would be serialized into the
file of the corresponding `CollapsedFiles` name, and `ln src dst`
(`pbtranscript.Utils.ln`, not in the snapshot; per the spec the final files
are "symlinked rather than regenerated") makes the destination field hold
exactly the source's content. -/

/-- The configuration and inputs of `CollapseIsoformsRunner.__init__`
(lines 128–156).  The existence bits and the isoform id list stand for the
state of the file system that `validate_inputs` inspects;
`max_fuzzy_junction` is an `int` in the source, so it is an `Int` here. -/
structure RunnerConfig where
  isoform_exists : Bool
  sam_exists : Bool
  isoform_ids : List String
  min_aln_coverage : ℚ
  min_aln_identity : ℚ
  min_flnc_coverage : Nat
  max_fuzzy_junction : Int
  allow_extra_5exon : Bool
  skip_5_exon_alt : Bool

/-- Embeds the `shall_collapse_fuzzy_junctions` property
(lines 158–161): `max_fuzzy_junction > 0`. -/
def shall_collapse_fuzzy_junctions (cfg : RunnerConfig) : Bool :=
  decide (0 < cfg.max_fuzzy_junction)

/-- Embeds line 238 of `CollapseIsoforms.py`:
`pick_least_err_instead = not self.allow_extra_5exon`. -/
def pick_least_err_instead (cfg : RunnerConfig) : Bool :=
  !cfg.allow_extra_5exon

/-- Errors of `CollapseIsoformsRunner.run` and its stages. -/
inductive RunError where
  | IOErrorIsoform
  | IOErrorSam
  | DuplicateIdsError
  | fromReader (e : ReaderError)
  | fromPicker (e : PickError)
  deriving Repr, DecidableEq

/-- Embeds `CollapseIsoformsRunner.validate_inputs` (lines 177–186): raise
`IOError` when the isoform file is missing, then when the SAM file is
missing, then fail unless the input isoform ids are unique
(`ContigSetReaderWrapper.check_ids_unique`, not in the snapshot, modelled
from the spec as a uniqueness check over the input ids). -/
def validate_inputs (cfg : RunnerConfig) : Except RunError Unit :=
  if cfg.isoform_exists then
    if cfg.sam_exists then
      if cfg.isoform_ids.Nodup then .ok () else .error .DuplicateIdsError
    else .error .IOErrorSam
  else .error .IOErrorIsoform

/-- The stages of `CollapseIsoformsRunner.run`, in the order the method
body performs them. -/
inductive Stage where
  | validateStage
  | branchStage
  | fuzzyStage
  | pickStage
  deriving Repr, DecidableEq

/-- The output artifacts of one successful `CollapseIsoformsRunner.run`,
each field holding the content of the file of the corresponding
`CollapsedFiles` name, plus the trace of the stages that ran in order. -/
structure RunnerResult where
  trace : List Stage
  ignored_ids : List String
  good_unfuzzy_gff : List Candidate
  bad_unfuzzy_gff : List Candidate
  unfuzzy_group : List ((Nat × Nat) × List String)
  good_fuzzy_gff : Option (List Candidate)
  fuzzy_group : Option (List ((Nat × Nat) × List String))
  good_gff : List Candidate
  gff : List Candidate
  group : List ((Nat × Nat) × List String)
  rep : List ((Nat × Nat) × RepMember)
  deriving Repr, DecidableEq

/-- Embeds `CollapseIsoformsRunner.run` (lines 188–251): validate inputs;
run `Branch.run` over the SAM stream (with `cov_threshold :=
min_flnc_coverage` and the default `tolerate_end = 100`); when
`shall_collapse_fuzzy_junctions`, run `collapse_fuzzy_junctions` on the good
unfuzzy outputs and link the final good GFF, GFF and group files to the
fuzzy files, else link them to the unfuzzy files; finally `pick_rep` reads
the final good GFF and group files with `pick_least_err_instead`. -/
def CollapseIsoformsRunner.run (cfg : RunnerConfig) (rs : List SamRecord)
    (env : List RepMember) : Except RunError RunnerResult :=
  match validate_inputs cfg with
  | .error e => .error e
  | .ok _ =>
    match Branch.run cfg.min_aln_coverage cfg.min_aln_identity
        cfg.min_flnc_coverage cfg.allow_extra_5exon cfg.skip_5_exon_alt
        100 rs with
    | .error e => .error (.fromReader e)
    | .ok bout =>
      if shall_collapse_fuzzy_junctions cfg then
        let fz := collapse_fuzzy_junctions cfg.max_fuzzy_junction.toNat
          bout.goodCands
        match pick_rep env (pick_least_err_instead cfg) fz.2 with
        | .error e => .error (.fromPicker e)
        | .ok reps =>
          .ok ⟨[.validateStage, .branchStage, .fuzzyStage, .pickStage],
              bout.ignored, bout.goodCands, bout.badCands, bout.groups,
              some fz.1, some fz.2, fz.1, fz.1, fz.2, reps⟩
      else
        match pick_rep env (pick_least_err_instead cfg) bout.groups with
        | .error e => .error (.fromPicker e)
        | .ok reps =>
          .ok ⟨[.validateStage, .branchStage, .pickStage],
              bout.ignored, bout.goodCands, bout.badCands, bout.groups,
              none, none, bout.goodCands, bout.goodCands, bout.groups, reps⟩

/-! ## Theorems -/

/-- Concatenating the two fixed pieces of the rep file name. -/
theorem collapsed_rep_append (x : String) :
    (x ++ ".collapsed") ++ ".rep." = x ++ ".collapsed.rep." := by
  rw [String.append_assoc]
  rfl

/-! ### Picker lemmas -/

/-- `strLt` is irreflexive. -/
theorem strLt_irrefl (a : String) : strLt a a = false := by
  simp [strLt]

/-- `strLt` is transitive. -/
theorem strLt_trans {a b c : String} (h1 : strLt a b = true)
    (h2 : strLt b c = true) : strLt a c = true := by
  simp only [strLt, decide_eq_true_eq] at *
  exact lt_trans h1 h2

/-- The negation of `strLt` is transitive (totality of the character-list
order). -/
theorem strLt_negtrans {a b c : String} (h1 : strLt a b = false)
    (h2 : strLt b c = false) : strLt a c = false := by
  simp only [strLt, decide_eq_false_iff_not, not_lt] at *
  exact le_trans h2 h1

/-- `betterRep` is irreflexive under either policy. -/
theorem betterRep_irrefl (f : Bool) (a : RepMember) :
    betterRep f a a = false := by
  cases f <;> simp [betterRep, strLt_irrefl]

/-- Characterization of the longest-first comparison. -/
theorem betterRep_longest_true (a b : RepMember) :
    betterRep false a b = true ↔
      b.len < a.len ∨ (a.len = b.len ∧ strLt a.qid b.qid = true) := by
  simp [betterRep]

/-- Characterization of the least-discrepancy comparison. -/
theorem betterRep_leasterr_true (a b : RepMember) :
    betterRep true a b = true ↔
      a.err < b.err ∨ (a.err = b.err ∧ strLt a.qid b.qid = true) := by
  simp [betterRep]

/-- A member is not longest-better than another iff it is not longer and
not a lexicographically smaller tie. -/
theorem betterRep_longest_false (a b : RepMember) :
    betterRep false a b = false ↔
      a.len ≤ b.len ∧ (a.len = b.len → strLt a.qid b.qid = false) := by
  rw [← Bool.not_eq_true, betterRep_longest_true]
  constructor
  · intro h
    refine ⟨not_lt.mp fun hl => h (Or.inl hl), fun he => ?_⟩
    rcases hs : strLt a.qid b.qid with _ | _
    · rfl
    · exact absurd (Or.inr ⟨he, hs⟩) h
  · rintro ⟨h1, h2⟩ (hl | ⟨he, hs⟩)
    · exact absurd h1 (not_le.mpr hl)
    · rw [h2 he] at hs; exact Bool.false_ne_true hs

/-- A member is not err-better than another iff it has no smaller
discrepancy and is not a lexicographically smaller tie. -/
theorem betterRep_leasterr_false (a b : RepMember) :
    betterRep true a b = false ↔
      b.err ≤ a.err ∧ (a.err = b.err → strLt a.qid b.qid = false) := by
  rw [← Bool.not_eq_true, betterRep_leasterr_true]
  constructor
  · intro h
    refine ⟨not_lt.mp fun hl => h (Or.inl hl), fun he => ?_⟩
    rcases hs : strLt a.qid b.qid with _ | _
    · rfl
    · exact absurd (Or.inr ⟨he, hs⟩) h
  · rintro ⟨h1, h2⟩ (hl | ⟨he, hs⟩)
    · exact absurd h1 (not_le.mpr hl)
    · rw [h2 he] at hs; exact Bool.false_ne_true hs

/-- `betterRep` is transitive under either policy. -/
theorem betterRep_trans {f : Bool} {a b c : RepMember}
    (h1 : betterRep f a b = true) (h2 : betterRep f b c = true) :
    betterRep f a c = true := by
  cases f
  · rw [betterRep_longest_true] at *
    rcases h1 with h1 | ⟨h1e, h1s⟩ <;> rcases h2 with h2 | ⟨h2e, h2s⟩
    · exact Or.inl (lt_of_lt_of_le h2 (le_of_lt h1))
    · exact Or.inl (h2e ▸ h1)
    · exact Or.inl (h1e ▸ h2)
    · exact Or.inr ⟨h1e.trans h2e, strLt_trans h1s h2s⟩
  · rw [betterRep_leasterr_true] at *
    rcases h1 with h1 | ⟨h1e, h1s⟩ <;> rcases h2 with h2 | ⟨h2e, h2s⟩
    · exact Or.inl (lt_trans h1 h2)
    · exact Or.inl (h2e ▸ h1)
    · exact Or.inl (h1e ▸ h2)
    · exact Or.inr ⟨h1e.trans h2e, strLt_trans h1s h2s⟩

/-- The negation of `betterRep` is transitive under either policy. -/
theorem betterRep_negtrans {f : Bool} {a b c : RepMember}
    (h1 : betterRep f a b = false) (h2 : betterRep f b c = false) :
    betterRep f a c = false := by
  cases f
  · rw [betterRep_longest_false] at *
    refine ⟨le_trans h1.1 h2.1, fun he => ?_⟩
    have hab : a.len = b.len := le_antisymm h1.1 (he ▸ h2.1)
    have hbc : b.len = c.len := hab ▸ he
    exact strLt_negtrans (h1.2 hab) (h2.2 hbc)
  · rw [betterRep_leasterr_false] at *
    refine ⟨le_trans h2.1 h1.1, fun he => ?_⟩
    have hab : a.err = b.err := le_antisymm (he ▸ h2.1) h1.1
    have hbc : b.err = c.err := hab ▸ he
    exact strLt_negtrans (h1.2 hab) (h2.2 hbc)

/-! ### Reader lemmas -/

/-- `groupFlush` is an error exactly when its argument is. -/
theorem groupFlush_error_iff (g : List SamRecord)
    (x : Except ReaderError ReaderOut) :
    groupFlush g x = .error .UnsortedInputError ↔
      x = .error .UnsortedInputError := by
  cases x with
  | error e => cases e; simp [groupFlush]
  | ok out => simp [groupFlush]

/-- `ignoredCons` is an error exactly when its argument is. -/
theorem ignoredCons_error_iff (q : String)
    (x : Except ReaderError ReaderOut) :
    ignoredCons q x = .error .UnsortedInputError ↔
      x = .error .UnsortedInputError := by
  cases x with
  | error e => cases e; simp [ignoredCons]
  | ok out => simp [ignoredCons]

/-- `groupFlush` succeeds exactly by prepending the flushed group to a
successful downstream result. -/
theorem groupFlush_ok_iff (g : List SamRecord)
    (x : Except ReaderError ReaderOut) (out : ReaderOut) :
    groupFlush g x = .ok out ↔
      ∃ o, x = .ok o ∧ out = ⟨g :: o.groups, o.ignored⟩ := by
  cases x with
  | error e => simp [groupFlush]
  | ok o =>
    simp only [groupFlush, Except.ok.injEq]
    constructor
    · intro h; exact ⟨o, rfl, h.symm⟩
    · rintro ⟨o2, ho2, hout⟩
      cases ho2; exact hout.symm

/-- `ignoredCons` succeeds exactly by prepending the ignored id to a
successful downstream result. -/
theorem ignoredCons_ok_iff (q : String)
    (x : Except ReaderError ReaderOut) (out : ReaderOut) :
    ignoredCons q x = .ok out ↔
      ∃ o, x = .ok o ∧ out = ⟨o.groups, q :: o.ignored⟩ := by
  cases x with
  | error e => simp [ignoredCons]
  | ok o =>
    simp only [ignoredCons, Except.ok.injEq]
    constructor
    · intro h; exact ⟨o, rfl, h.symm⟩
    · rintro ⟨o2, ho2, hout⟩
      cases ho2; exact hout.symm

/-- The reader errs exactly when the keys of the records passing the
coverage/identity filter, continued from the previous emitted key, are not
sorted. -/
theorem readAux_error_iff (mc mi : ℚ) (rs : List SamRecord) :
    ∀ (pk : Option (String × Nat)) (og : Option OpenGroup),
      readAux mc mi rs pk og = .error .UnsortedInputError ↔
        keysSortedFrom pk (emittedKeys mc mi rs) = false := by
  induction rs with
  | nil =>
    intro pk og
    cases pk <;> simp [readAux, emittedKeys, keysSortedFrom, keysSorted]
  | cons r rest ih =>
    intro pk og
    by_cases hp : passesFilter mc mi r = true
    · have hemit : emittedKeys mc mi (r :: rest)
          = samKey r :: emittedKeys mc mi rest := by
        simp [emittedKeys, hp]
      rw [hemit]
      by_cases ho : outOfOrder pk (samKey r) = true
      · simp only [readAux]
        rw [if_pos hp, if_pos ho]
        cases pk with
        | none => simp [outOfOrder] at ho
        | some k =>
          simp only [outOfOrder] at ho
          simp [keysSortedFrom, keysSorted, ho]
      · simp only [readAux]
        rw [if_pos hp, if_neg ho]
        have hrest : ∀ og2 : Option OpenGroup,
            readAux mc mi rest (some (samKey r)) og2
                = .error .UnsortedInputError ↔
              keysSorted (samKey r :: emittedKeys mc mi rest) = false :=
          fun og2 => (ih (some (samKey r)) og2).trans (by simp [keysSortedFrom])
        have hrhs : keysSortedFrom pk (samKey r :: emittedKeys mc mi rest)
            = keysSorted (samKey r :: emittedKeys mc mi rest) := by
          cases pk with
          | none => simp [keysSortedFrom]
          | some k =>
            have hk : keyLt (samKey r) k = false := by
              simpa [outOfOrder] using ho
            simp [keysSortedFrom, keysSorted, hk]
        rw [hrhs]
        cases og with
        | none => exact hrest _
        | some g =>
          simp only []
          by_cases hj : r.rID = g.gID ∧ r.rStart < g.gMaxEnd
          · rw [if_pos hj]; exact hrest _
          · rw [if_neg hj, groupFlush_error_iff]; exact hrest _
    · have hp2 : passesFilter mc mi r = false := by simpa using hp
      have hemit : emittedKeys mc mi (r :: rest) = emittedKeys mc mi rest := by
        simp [emittedKeys, hp2]
      simp only [readAux]
      rw [if_neg (by simp [hp2]), ignoredCons_error_iff, hemit]
      exact ih pk og

/-- On success the reader records exactly the filtered-out ids in encounter
order, and every record in every emitted overlap group passed the filter
and came from the input (or the open group it was seeded with). -/
theorem readAux_ok_spec (mc mi : ℚ) (rs : List SamRecord) :
    ∀ (pk : Option (String × Nat)) (og : Option OpenGroup)
      (out : ReaderOut),
      readAux mc mi rs pk og = .ok out →
      (∀ x ∈ ogMembers og, passesFilter mc mi x = true) →
      out.ignored = (rs.filter
        (fun r => !passesFilter mc mi r)).map SamRecord.qID ∧
      ∀ g ∈ out.groups, ∀ x ∈ g,
        passesFilter mc mi x = true ∧ (x ∈ rs ∨ x ∈ ogMembers og) := by
  induction rs with
  | nil =>
    intro pk og out hok hog
    simp only [readAux, Except.ok.injEq] at hok
    subst hok
    refine ⟨by simp, fun g hg x hx => ?_⟩
    cases og with
    | none => simp [flushOpen] at hg
    | some g0 =>
      simp only [flushOpen, List.mem_singleton] at hg
      subst hg
      exact ⟨hog x hx, Or.inr hx⟩
  | cons r rest ih =>
    intro pk og out hok hog
    by_cases hp : passesFilter mc mi r = true
    · simp only [readAux] at hok
      rw [if_pos hp] at hok
      by_cases ho : outOfOrder pk (samKey r) = true
      · rw [if_pos ho] at hok; exact absurd hok (by simp)
      · rw [if_neg ho] at hok
        cases og with
        | none =>
          obtain ⟨hig, hgr⟩ := ih (some (samKey r))
            (some ⟨r.rID, r.rEnd, [r]⟩) out hok
            (by intro x hx
                simp only [ogMembers, List.mem_singleton] at hx
                subst hx; exact hp)
          refine ⟨by simpa [hp] using hig, fun g hg x hx => ?_⟩
          obtain ⟨hpass, hsrc⟩ := hgr g hg x hx
          refine ⟨hpass, ?_⟩
          rcases hsrc with h | h
          · exact Or.inl (List.mem_cons_of_mem _ h)
          · simp only [ogMembers, List.mem_singleton] at h
            subst h; exact Or.inl (List.mem_cons_self _ _)
        | some g0 =>
          simp only [] at hok
          by_cases hj : r.rID = g0.gID ∧ r.rStart < g0.gMaxEnd
          · rw [if_pos hj] at hok
            obtain ⟨hig, hgr⟩ := ih (some (samKey r))
              (some ⟨g0.gID, max g0.gMaxEnd r.rEnd, g0.members ++ [r]⟩)
              out hok
              (by intro x hx
                  simp only [ogMembers, List.mem_append,
                    List.mem_singleton] at hx
                  rcases hx with hx | hx
                  · exact hog x (by simpa [ogMembers] using hx)
                  · subst hx; exact hp)
            refine ⟨by simpa [hp] using hig, fun g hg x hx => ?_⟩
            obtain ⟨hpass, hsrc⟩ := hgr g hg x hx
            refine ⟨hpass, ?_⟩
            rcases hsrc with h | h
            · exact Or.inl (List.mem_cons_of_mem _ h)
            · simp only [ogMembers, List.mem_append, List.mem_singleton] at h
              rcases h with h | h
              · exact Or.inr (by simpa [ogMembers] using h)
              · subst h; exact Or.inl (List.mem_cons_self _ _)
          · rw [if_neg hj] at hok
            rw [groupFlush_ok_iff] at hok
            obtain ⟨o, hrec, hout⟩ := hok
            obtain ⟨hig, hgr⟩ := ih (some (samKey r))
              (some ⟨r.rID, r.rEnd, [r]⟩) o hrec
              (by intro x hx
                  simp only [ogMembers, List.mem_singleton] at hx
                  subst hx; exact hp)
            subst hout
            refine ⟨by simpa [hp] using hig, fun g hg x hx => ?_⟩
            simp only [List.mem_cons] at hg
            rcases hg with hg | hg
            · subst hg
              exact ⟨hog x hx, Or.inr (by simpa [ogMembers] using hx)⟩
            · obtain ⟨hpass, hsrc⟩ := hgr g hg x hx
              refine ⟨hpass, ?_⟩
              rcases hsrc with h | h
              · exact Or.inl (List.mem_cons_of_mem _ h)
              · simp only [ogMembers, List.mem_singleton] at h
                subst h; exact Or.inl (List.mem_cons_self _ _)
    · have hp2 : passesFilter mc mi r = false := by simpa using hp
      simp only [readAux] at hok
      rw [if_neg (by simp [hp2]), ignoredCons_ok_iff] at hok
      obtain ⟨o, hrec, hout⟩ := hok
      obtain ⟨hig, hgr⟩ := ih pk og o hrec hog
      subst hout
      refine ⟨by simpa [hp2] using hig, fun g hg x hx => ?_⟩
      obtain ⟨hpass, hsrc⟩ := hgr g hg x hx
      refine ⟨hpass, ?_⟩
      rcases hsrc with h | h
      · exact Or.inl (List.mem_cons_of_mem _ h)
      · exact Or.inr h

/-! ### Collapse-engine lemmas -/

/-- `insertRec` never produces an empty class list. -/
theorem insertRec_ne_nil (a5 s5 : Bool) (tol : Nat)
    (cs : List CollapseClass) (r : SamRecord) :
    insertRec a5 s5 tol cs r ≠ [] := by
  cases cs with
  | nil => simp [insertRec]
  | cons c0 cs =>
    by_cases h : compatible a5 s5 tol r.chain c0.chain = true
    · simp [insertRec, h]
    · simp [insertRec, h]

/-- Every member of a class after one `insertRec` step was a member before
or is the inserted record's query id. -/
theorem insertRec_members (a5 s5 : Bool) (tol : Nat) :
    ∀ (cs : List CollapseClass) (r : SamRecord) (c : CollapseClass),
      c ∈ insertRec a5 s5 tol cs r → ∀ q ∈ c.members,
        (∃ c0 ∈ cs, q ∈ c0.members) ∨ q = r.qID := by
  intro cs
  induction cs with
  | nil =>
    intro r c hc q hq
    simp only [insertRec, List.mem_singleton] at hc
    subst hc
    simp only [List.mem_singleton] at hq
    exact Or.inr hq
  | cons c0 cs ih =>
    intro r c hc q hq
    simp only [insertRec] at hc
    by_cases hcomp : compatible a5 s5 tol r.chain c0.chain = true
    · rw [if_pos hcomp] at hc
      rcases List.mem_cons.mp hc with h | h
      · subst h
        simp only [List.mem_append, List.mem_singleton] at hq
        rcases hq with h | h
        · exact Or.inl ⟨c0, List.mem_cons_self _ _, h⟩
        · exact Or.inr h
      · exact Or.inl ⟨c, List.mem_cons_of_mem _ h, hq⟩
    · rw [if_neg hcomp] at hc
      rcases List.mem_cons.mp hc with h | h
      · subst h
        exact Or.inl ⟨c, List.mem_cons_self _ _, hq⟩
      · rcases ih r c h q hq with ⟨c1, hc1, hq1⟩ | h1
        · exact Or.inl ⟨c1, List.mem_cons_of_mem _ hc1, hq1⟩
        · exact Or.inr h1

/-- `insertRec` keeps every class member list non-empty. -/
theorem insertRec_nonempty (a5 s5 : Bool) (tol : Nat) :
    ∀ (cs : List CollapseClass) (r : SamRecord) (c : CollapseClass),
      (∀ c0 ∈ cs, c0.members ≠ []) →
      c ∈ insertRec a5 s5 tol cs r → c.members ≠ [] := by
  intro cs
  induction cs with
  | nil =>
    intro r c _ hc
    simp only [insertRec, List.mem_singleton] at hc
    subst hc
    simp
  | cons c0 cs ih =>
    intro r c hall hc
    simp only [insertRec] at hc
    by_cases hcomp : compatible a5 s5 tol r.chain c0.chain = true
    · rw [if_pos hcomp] at hc
      rcases List.mem_cons.mp hc with h | h
      · subst h; simp
      · exact hall c (List.mem_cons_of_mem _ h)
    · rw [if_neg hcomp] at hc
      rcases List.mem_cons.mp hc with h | h
      · subst h; exact hall c (List.mem_cons_self _ _)
      · exact ih r c (fun c1 hc1 => hall c1 (List.mem_cons_of_mem _ hc1)) h

/-- The fold underlying `buildClasses`: members of every class come from
the seed classes or from the folded records. -/
theorem foldl_insertRec_members (a5 s5 : Bool) (tol : Nat) :
    ∀ (recs : List SamRecord) (cs0 : List CollapseClass)
      (c : CollapseClass),
      c ∈ recs.foldl (insertRec a5 s5 tol) cs0 → ∀ q ∈ c.members,
        (∃ c0 ∈ cs0, q ∈ c0.members) ∨ ∃ r ∈ recs, r.qID = q := by
  intro recs
  induction recs with
  | nil =>
    intro cs0 c hc q hq
    exact Or.inl ⟨c, hc, hq⟩
  | cons r rest ih =>
    intro cs0 c hc q hq
    simp only [List.foldl_cons] at hc
    rcases ih (insertRec a5 s5 tol cs0 r) c hc q hq with ⟨c1, hc1, hq1⟩ | h1
    · rcases insertRec_members a5 s5 tol cs0 r c1 hc1 q hq1 with ⟨c2, hc2, hq2⟩ | h2
      · exact Or.inl ⟨c2, hc2, hq2⟩
      · exact Or.inr ⟨r, List.mem_cons_self _ _, h2.symm⟩
    · obtain ⟨r1, hr1, hq1⟩ := h1
      exact Or.inr ⟨r1, List.mem_cons_of_mem _ hr1, hq1⟩

/-- The fold underlying `buildClasses` keeps member lists non-empty. -/
theorem foldl_insertRec_nonempty (a5 s5 : Bool) (tol : Nat) :
    ∀ (recs : List SamRecord) (cs0 : List CollapseClass)
      (c : CollapseClass),
      (∀ c0 ∈ cs0, c0.members ≠ []) →
      c ∈ recs.foldl (insertRec a5 s5 tol) cs0 → c.members ≠ [] := by
  intro recs
  induction recs with
  | nil => intro cs0 c h0 hc; exact h0 c hc
  | cons r rest ih =>
    intro cs0 c h0 hc
    simp only [List.foldl_cons] at hc
    exact ih (insertRec a5 s5 tol cs0 r) c
      (fun c1 hc1 => insertRec_nonempty a5 s5 tol cs0 r c1 h0 hc1) hc

/-- The fold underlying `buildClasses` never loses all classes. -/
theorem foldl_insertRec_ne_nil (a5 s5 : Bool) (tol : Nat) :
    ∀ (recs : List SamRecord) (cs0 : List CollapseClass), cs0 ≠ [] →
      recs.foldl (insertRec a5 s5 tol) cs0 ≠ [] := by
  intro recs
  induction recs with
  | nil => intro cs0 h; simpa using h
  | cons r rest ih =>
    intro cs0 _
    simp only [List.foldl_cons]
    exact ih (insertRec a5 s5 tol cs0 r) (insertRec_ne_nil a5 s5 tol cs0 r)

/-- `buildClasses` of a non-empty record group is non-empty. -/
theorem buildClasses_ne_nil (a5 s5 : Bool) (tol : Nat) (r : SamRecord)
    (rest : List SamRecord) :
    buildClasses a5 s5 tol (r :: rest) ≠ [] := by
  unfold buildClasses
  simp only [List.foldl_cons]
  exact foldl_insertRec_ne_nil a5 s5 tol rest _ (insertRec_ne_nil a5 s5 tol [] r)

/-- Every member of every `buildClasses` class is the query id of one of
the group's records. -/
theorem buildClasses_members (a5 s5 : Bool) (tol : Nat)
    (recs : List SamRecord) (c : CollapseClass)
    (hc : c ∈ buildClasses a5 s5 tol recs) :
    ∀ q ∈ c.members, ∃ r ∈ recs, r.qID = q := by
  intro q hq
  rcases foldl_insertRec_members a5 s5 tol recs [] c hc q hq with ⟨c0, hc0, _⟩ | h
  · simp at hc0
  · exact h

/-- Every `buildClasses` class has at least one member. -/
theorem buildClasses_nonempty (a5 s5 : Bool) (tol : Nat)
    (recs : List SamRecord) (c : CollapseClass)
    (hc : c ∈ buildClasses a5 s5 tol recs) : c.members ≠ [] :=
  foldl_insertRec_nonempty a5 s5 tol recs [] c (by simp) hc

/-- Shape of every candidate emitted by `numberClasses`: it carries one of
the classes, its cuff index is the given one, its within-group index is at
least the starting index, and its good flag tests the member count against
the threshold. -/
theorem numberClasses_mem (cuff covT : Nat) (rid : String) (strand : Bool) :
    ∀ (j : Nat) (cls : List CollapseClass) (cand : Candidate),
      cand ∈ numberClasses cuff covT rid strand j cls →
      ∃ cl ∈ cls, cand.members = cl.members ∧
        cand.good = decide (covT ≤ cl.members.length) ∧
        cand.idx.1 = cuff ∧ j ≤ cand.idx.2 := by
  intro j cls
  induction cls generalizing j with
  | nil => intro cand hc; simp [numberClasses] at hc
  | cons cl cls ih =>
    intro cand hc
    simp only [numberClasses, List.mem_cons] at hc
    rcases hc with h | h
    · subst h
      exact ⟨cl, List.mem_cons_self _ _, rfl, rfl, rfl, le_refl _⟩
    · obtain ⟨cl1, hcl1, hm, hg, hfst, hsnd⟩ := ih (j + 1) cand h
      exact ⟨cl1, List.mem_cons_of_mem _ hcl1, hm, hg, hfst,
        le_trans (Nat.le_succ _) hsnd⟩

/-- The candidates of `numberClasses` have strictly increasing ids. -/
theorem numberClasses_pairwise (cuff covT : Nat) (rid : String)
    (strand : Bool) :
    ∀ (j : Nat) (cls : List CollapseClass),
      List.Pairwise (fun a b : Candidate => idxLt a.idx b.idx)
        (numberClasses cuff covT rid strand j cls) := by
  intro j cls
  induction cls generalizing j with
  | nil => simp [numberClasses]
  | cons cl cls ih =>
    simp only [numberClasses]
    refine List.pairwise_cons.mpr ⟨fun cand hc => ?_, ih (j + 1)⟩
    obtain ⟨_, _, _, _, hfst, hsnd⟩ :=
      numberClasses_mem cuff covT rid strand (j + 1) cls cand hc
    exact Or.inr ⟨hfst.symm, lt_of_lt_of_le (Nat.lt_succ_self j) hsnd⟩

/-- A non-empty record group collapses to a non-empty candidate list whose
head carries id `(cuff, 1)`. -/
theorem collapse_sam_records_head (cuff covT : Nat) (a5 s5 : Bool)
    (tol : Nat) (g : List SamRecord) (hg : g ≠ []) :
    ∃ cand cands, collapse_sam_records cuff covT a5 s5 tol g
      = cand :: cands ∧ cand.idx = (cuff, 1) := by
  match g, hg with
  | r :: rest, _ =>
    have hne := buildClasses_ne_nil a5 s5 tol r rest
    match hcls : buildClasses a5 s5 tol (r :: rest), hne with
    | cl :: cls, _ =>
      unfold collapse_sam_records
      rw [hcls]
      simp only [numberClasses]
      exact ⟨_, _, rfl, rfl⟩

/-- Shape of every candidate emitted by `collapse_sam_records`. -/
theorem collapse_sam_records_mem (cuff covT : Nat) (a5 s5 : Bool)
    (tol : Nat) (g : List SamRecord) (cand : Candidate)
    (hc : cand ∈ collapse_sam_records cuff covT a5 s5 tol g) :
    ∃ cl ∈ buildClasses a5 s5 tol g, cand.members = cl.members ∧
      cand.good = decide (covT ≤ cl.members.length) ∧
      cand.idx.1 = cuff ∧ 1 ≤ cand.idx.2 :=
  numberClasses_mem cuff covT _ _ 1 _ cand hc

/-- Every candidate of `branchLoop` comes from collapsing one of the
non-empty record groups with a cuff index at least the starting one. -/
theorem branchLoop_mem (covT : Nat) (a5 s5 : Bool) (tol : Nat) :
    ∀ (gs : List (List SamRecord)) (cuff : Nat) (cand : Candidate),
      cand ∈ branchLoop covT a5 s5 tol gs cuff →
      ∃ g ∈ gs, 0 < g.length ∧ ∃ c, cuff ≤ c ∧
        cand ∈ collapse_sam_records c covT a5 s5 tol g := by
  intro gs
  induction gs with
  | nil => intro cuff cand hc; simp [branchLoop] at hc
  | cons g gs ih =>
    intro cuff cand hc
    simp only [branchLoop] at hc
    by_cases hg : 0 < g.length
    · rw [if_pos hg] at hc
      rcases List.mem_append.mp hc with h | h
      · exact ⟨g, List.mem_cons_self _ _, hg, cuff, le_refl _, h⟩
      · obtain ⟨g1, hg1, hlen, c, hcuff, hcand⟩ := ih (cuff + 1) cand h
        exact ⟨g1, List.mem_cons_of_mem _ hg1, hlen, c,
          le_trans (Nat.le_succ _) hcuff, hcand⟩
    · rw [if_neg hg] at hc
      obtain ⟨g1, hg1, hlen, c, hcuff, hcand⟩ := ih cuff cand hc
      exact ⟨g1, List.mem_cons_of_mem _ hg1, hlen, c, hcuff, hcand⟩

/-- Every candidate of `branchLoop` has cuff index at least the starting
counter value. -/
theorem branchLoop_fst_ge (covT : Nat) (a5 s5 : Bool) (tol : Nat)
    (gs : List (List SamRecord)) (cuff : Nat) (cand : Candidate)
    (hc : cand ∈ branchLoop covT a5 s5 tol gs cuff) : cuff ≤ cand.idx.1 := by
  obtain ⟨g, _, _, c, hcuff, hcand⟩ := branchLoop_mem covT a5 s5 tol gs cuff cand hc
  obtain ⟨_, _, _, _, hfst, _⟩ := collapse_sam_records_mem c covT a5 s5 tol g cand hcand
  exact hfst ▸ hcuff

/-- The candidates of `branchLoop` have strictly increasing ids. -/
theorem branchLoop_pairwise (covT : Nat) (a5 s5 : Bool) (tol : Nat) :
    ∀ (gs : List (List SamRecord)) (cuff : Nat),
      List.Pairwise (fun a b : Candidate => idxLt a.idx b.idx)
        (branchLoop covT a5 s5 tol gs cuff) := by
  intro gs
  induction gs with
  | nil => intro cuff; simp [branchLoop]
  | cons g gs ih =>
    intro cuff
    simp only [branchLoop]
    by_cases hg : 0 < g.length
    · rw [if_pos hg]
      refine List.pairwise_append.mpr ⟨numberClasses_pairwise _ _ _ _ 1 _,
        ih (cuff + 1), fun a ha b hb => ?_⟩
      obtain ⟨_, _, _, _, hfst, _⟩ :=
        collapse_sam_records_mem cuff covT a5 s5 tol g a ha
      have hb1 := branchLoop_fst_ge covT a5 s5 tol gs (cuff + 1) b hb
      exact Or.inl (by omega)
    · rw [if_neg hg]
      exact ih cuff

/-- The head of `branchLoop` (when present) has id `(cuff, 1)` for the
first non-empty group's counter value. -/
theorem branchLoop_head (covT : Nat) (a5 s5 : Bool) (tol : Nat) :
    ∀ (gs : List (List SamRecord)) (cuff : Nat) (cand : Candidate),
      (branchLoop covT a5 s5 tol gs cuff).head? = some cand →
      cand.idx = (cuff, 1) := by
  intro gs
  induction gs with
  | nil => intro cuff cand h; simp [branchLoop] at h
  | cons g gs ih =>
    intro cuff cand h
    simp only [branchLoop] at h
    by_cases hg : 0 < g.length
    · rw [if_pos hg] at h
      have hgne : g ≠ [] := by
        intro he; rw [he] at hg; simp at hg
      obtain ⟨c0, cs0, heq, hidx⟩ :=
        collapse_sam_records_head cuff covT a5 s5 tol g hgne
      rw [heq] at h
      simp only [List.cons_append, List.head?_cons, Option.some.injEq] at h
      rw [← h]
      exact hidx
    · rw [if_neg hg] at h
      exact ih cuff cand h

/-- Any per-strand record list that `Branch.run` collapses is contained in
one of the reader's overlap groups. -/
theorem mem_strand_flatten (groups : List (List SamRecord))
    (g : List SamRecord)
    (hg : g ∈ (groups.map strandGroups).flatten) :
    ∃ g0 ∈ groups, ∀ x ∈ g, x ∈ g0 := by
  rcases List.mem_flatten.mp hg with ⟨l, hl, hgl⟩
  rcases List.mem_map.mp hl with ⟨g0, hg0, rfl⟩
  refine ⟨g0, hg0, fun x hx => ?_⟩
  simp only [strandGroups, List.mem_cons, List.not_mem_nil, or_false] at hgl
  rcases hgl with h | h <;>
    · subst h
      exact (List.mem_filter.mp hx).1

/-- `lookupMember` fails only with a missing-sequence error. -/
theorem lookupMember_error_shape (env : List RepMember) (q : String)
    (e : PickError) (h : lookupMember env q = .error e) :
    ∃ qid, e = .MissingSequenceError qid := by
  unfold lookupMember at h
  cases hf : env.find? (fun m => m.qid = q) with
  | none => rw [hf] at h; exact ⟨q, by simpa using h.symm⟩
  | some m => rw [hf] at h; exact absurd h (by simp)

/-- `lookupMembers` fails only with a missing-sequence error. -/
theorem lookupMembers_error_shape (env : List RepMember) :
    ∀ (qs : List String) (e : PickError),
      lookupMembers env qs = .error e →
      ∃ qid, e = .MissingSequenceError qid := by
  intro qs
  induction qs with
  | nil => intro e h; exact absurd h (by simp [lookupMembers])
  | cons q qs ih =>
    intro e h
    unfold lookupMembers at h
    cases hq : lookupMember env q with
    | error e1 =>
      rw [hq] at h
      simp only [Except.error.injEq] at h
      exact h ▸ lookupMember_error_shape env q e1 hq
    | ok m =>
      rw [hq] at h
      cases hrest : lookupMembers env qs with
      | error e2 =>
        rw [hrest] at h
        simp only [Except.error.injEq] at h
        exact h ▸ ih e2 hrest
      | ok ms => rw [hrest] at h; exact absurd h (by simp)

/-- `lookupMembers` of a non-empty id list never succeeds with an empty
member list. -/
theorem lookupMembers_cons_ok_ne_nil (env : List RepMember) (q : String)
    (qs : List String) (ms : List RepMember)
    (h : lookupMembers env (q :: qs) = .ok ms) : ms ≠ [] := by
  unfold lookupMembers at h
  cases hq : lookupMember env q with
  | error e => rw [hq] at h; exact absurd h (by simp)
  | ok m =>
    rw [hq] at h
    cases hrest : lookupMembers env qs with
    | error e => rw [hrest] at h; exact absurd h (by simp)
    | ok ms2 =>
      rw [hrest] at h
      simp only [Except.ok.injEq] at h
      rw [← h]
      simp

/-- Picking from a group with at least one member never raises the
empty-group error. -/
theorem pick_rep_one_cons_ne_empty (env : List RepMember) (flag : Bool)
    (gid : Nat × Nat) (q : String) (qs : List String) :
    pick_rep_one env flag (gid, q :: qs) ≠ .error .EmptyGroupError := by
  unfold pick_rep_one
  cases hm : lookupMembers env (q :: qs) with
  | error e =>
    obtain ⟨qid, he⟩ := lookupMembers_error_shape env (q :: qs) e hm
    subst he
    simp
  | ok ms =>
    have hne := lookupMembers_cons_ok_ne_nil env q qs ms hm
    match ms, hne with
    | m :: tail, _ => simp [pickBest]

/-- The fold inside `pickBest` returns one of its inputs and no input is
strictly better than the result. -/
theorem pickBest_foldl_spec (f : Bool) (ms : List RepMember)
    (acc : RepMember) :
    ms.foldl (fun a x => if betterRep f x a then x else a) acc ∈ acc :: ms ∧
    ∀ x ∈ acc :: ms,
      betterRep f x (ms.foldl (fun a x => if betterRep f x a then x else a) acc)
        = false := by
  induction ms generalizing acc with
  | nil => simp [betterRep_irrefl]
  | cons m ms ih =>
    simp only [List.foldl_cons]
    by_cases hb : betterRep f m acc = true
    · rw [if_pos hb]
      obtain ⟨hmem, hall⟩ := ih m
      refine ⟨?_, ?_⟩
      · rcases List.mem_cons.mp hmem with h | h
        · rw [h]; exact List.mem_cons_of_mem _ (List.mem_cons_self _ _)
        · exact List.mem_cons_of_mem _ (List.mem_cons_of_mem _ h)
      · intro x hx
        rcases List.mem_cons.mp hx with hx | hx
        · subst hx
          rcases hc : betterRep f x
              (ms.foldl (fun a y => if betterRep f y a then y else a) m)
            with _ | _
          · rfl
          · exact absurd (betterRep_trans hb hc)
              (by simp [hall m (List.mem_cons_self _ _)])
        · rcases List.mem_cons.mp hx with hx | hx
          · rw [hx]; exact hall m (List.mem_cons_self _ _)
          · exact hall x (List.mem_cons_of_mem _ hx)
    · rw [if_neg hb]
      have hb2 : betterRep f m acc = false := by simpa using hb
      obtain ⟨hmem, hall⟩ := ih acc
      refine ⟨?_, ?_⟩
      · rcases List.mem_cons.mp hmem with h | h
        · rw [h]; exact List.mem_cons_self _ _
        · exact List.mem_cons_of_mem _ (List.mem_cons_of_mem _ h)
      · intro x hx
        rcases List.mem_cons.mp hx with hx | hx
        · rw [hx]; exact hall acc (List.mem_cons_self _ _)
        · rcases List.mem_cons.mp hx with hx | hx
          · rw [hx]
            exact betterRep_negtrans hb2 (hall acc (List.mem_cons_self _ _))
          · exact hall x (List.mem_cons_of_mem _ hx)

end PbTranscript

open PbTranscript

/-- C10: `CollapsedFiles.rep_fn` is defined only for suffix `"fasta"`,
`"fastq"` and `"contigset.xml"`: for each it returns the deterministic name
`<prefix>.<5merge|no5merge>.collapsed.rep.<suffix>` where the component is
`"5merge"` exactly when `allow_extra_5exon` is true; every other suffix
fails the assertion (modelled as `none`) rather than returning a name. -/
theorem claim_C10_rep_fn (cf : CollapsedFiles) (s : String) :
    (s = "fasta" ∨ s = "fastq" ∨ s = "contigset.xml" →
      cf.rep_fn s = some (cf.pfx ++ "." ++
        (if cf.allow_extra_5exon then "5merge" else "no5merge") ++
        ".collapsed.rep." ++ s)) ∧
    (s ≠ "fasta" → s ≠ "fastq" → s ≠ "contigset.xml" →
      cf.rep_fn s = none) := by
  constructor
  · intro h
    have : cf.rep_fn s = some (cf.collapsedPfx ++ ".rep." ++ s) := by
      simp [CollapsedFiles.rep_fn, h]
    rw [this]
    unfold CollapsedFiles.collapsedPfx CollapsedFiles.has_5merge_str
    rw [collapsed_rep_append]
  · intro h1 h2 h3
    simp [CollapsedFiles.rep_fn, h1, h2, h3]

/-- Evaluation witness for `claim_C10_rep_fn` at a concrete prefix and at
the three legal suffixes plus an illegal one. -/
theorem claim_C10_rep_fn_witness :
    CollapsedFiles.rep_fn ⟨"out", true⟩ "fasta" =
      some "out.5merge.collapsed.rep.fasta" ∧
    CollapsedFiles.rep_fn ⟨"out", false⟩ "fastq" =
      some "out.no5merge.collapsed.rep.fastq" ∧
    CollapsedFiles.rep_fn ⟨"out", false⟩ "contigset.xml" =
      some "out.no5merge.collapsed.rep.contigset.xml" ∧
    CollapsedFiles.rep_fn ⟨"out", true⟩ "bam" = none := by
  refine ⟨?_, ?_, ?_, ?_⟩
  · exact (claim_C10_rep_fn ⟨"out", true⟩ "fasta").1 (Or.inl rfl)
  · exact (claim_C10_rep_fn ⟨"out", false⟩ "fastq").1 (Or.inr (Or.inl rfl))
  · exact (claim_C10_rep_fn ⟨"out", false⟩ "contigset.xml").1
      (Or.inr (Or.inr rfl))
  · exact (claim_C10_rep_fn ⟨"out", true⟩ "bam").2 (by decide) (by decide)
      (by decide)

/-- C9: `CollapseIsoformsRunner.run` validates its inputs before any
processing: it raises `IOError` when the isoform file or the SAM file does
not exist and fails when the input isoform ids are not unique; on such a
failure the run returns the validation error whatever the SAM stream and
isoform collection hold — no collapsing stage runs and no output artifact
(`RunnerResult`) is produced — and a successful run implies validation
passed. -/
theorem claim_C9_validate_first (cfg : RunnerConfig) (rs : List SamRecord)
    (env : List RepMember) :
    (cfg.isoform_exists = false →
      CollapseIsoformsRunner.run cfg rs env = .error .IOErrorIsoform) ∧
    (cfg.isoform_exists = true → cfg.sam_exists = false →
      CollapseIsoformsRunner.run cfg rs env = .error .IOErrorSam) ∧
    (cfg.isoform_exists = true → cfg.sam_exists = true →
      ¬ cfg.isoform_ids.Nodup →
      CollapseIsoformsRunner.run cfg rs env = .error .DuplicateIdsError) ∧
    (∀ out, CollapseIsoformsRunner.run cfg rs env = .ok out →
      validate_inputs cfg = .ok ()) := by
  refine ⟨?_, ?_, ?_, ?_⟩
  · intro h
    simp [CollapseIsoformsRunner.run, validate_inputs, h]
  · intro h1 h2
    simp [CollapseIsoformsRunner.run, validate_inputs, h1, h2]
  · intro h1 h2 h3
    simp [CollapseIsoformsRunner.run, validate_inputs, h1, h2, h3]
  · intro out hout
    unfold CollapseIsoformsRunner.run at hout
    match hval : validate_inputs cfg with
    | .ok () => rfl
    | .error e => rw [hval] at hout; exact absurd hout (by simp)

/-- Evaluation witness for `claim_C9_validate_first`: each of the three
validation failures on a concrete configuration. -/
theorem claim_C9_validate_first_witness :
    CollapseIsoformsRunner.run ⟨false, true, [], 0, 0, 1, 0, true, false⟩ [] []
      = .error .IOErrorIsoform ∧
    CollapseIsoformsRunner.run ⟨true, false, [], 0, 0, 1, 0, true, false⟩ [] []
      = .error .IOErrorSam ∧
    CollapseIsoformsRunner.run
        ⟨true, true, ["a", "a"], 0, 0, 1, 0, true, false⟩ [] []
      = .error .DuplicateIdsError := by
  refine ⟨?_, ?_, ?_⟩
  · exact (claim_C9_validate_first ⟨false, true, [], 0, 0, 1, 0, true, false⟩
      [] []).1 rfl
  · exact (claim_C9_validate_first ⟨true, false, [], 0, 0, 1, 0, true, false⟩
      [] []).2.1 rfl rfl
  · exact (claim_C9_validate_first
      ⟨true, true, ["a", "a"], 0, 0, 1, 0, true, false⟩ [] []).2.2.1 rfl rfl
      (by decide)

/-- C1: when the configured `max_fuzzy_junction` is not positive,
`CollapseIsoformsRunner.run` skips the fuzzy-junction merging stage and the
stage is the identity transform — the final good GFF, GFF and group outputs
are links to the unfuzzy-stage files, so the output groups equal the
unfuzzy-stage groups id-for-id and member-for-member; when
`max_fuzzy_junction > 0`, `collapse_fuzzy_junctions` is invoked on the good
unfuzzy outputs and the final outputs link to the fuzzy files instead. -/
theorem claim_C1_fuzzy_gate (cfg : RunnerConfig) (rs : List SamRecord)
    (env : List RepMember) (out : RunnerResult)
    (hrun : CollapseIsoformsRunner.run cfg rs env = .ok out) :
    (¬ (0 < cfg.max_fuzzy_junction) →
      out.good_fuzzy_gff = none ∧ out.fuzzy_group = none ∧
      Stage.fuzzyStage ∉ out.trace ∧
      out.good_gff = out.good_unfuzzy_gff ∧
      out.gff = out.good_unfuzzy_gff ∧
      out.group = out.unfuzzy_group) ∧
    (0 < cfg.max_fuzzy_junction →
      out.good_fuzzy_gff = some (collapse_fuzzy_junctions
        cfg.max_fuzzy_junction.toNat out.good_unfuzzy_gff).1 ∧
      out.fuzzy_group = some (collapse_fuzzy_junctions
        cfg.max_fuzzy_junction.toNat out.good_unfuzzy_gff).2 ∧
      Stage.fuzzyStage ∈ out.trace ∧
      out.good_gff = (collapse_fuzzy_junctions
        cfg.max_fuzzy_junction.toNat out.good_unfuzzy_gff).1 ∧
      out.gff = (collapse_fuzzy_junctions
        cfg.max_fuzzy_junction.toNat out.good_unfuzzy_gff).1 ∧
      out.group = (collapse_fuzzy_junctions
        cfg.max_fuzzy_junction.toNat out.good_unfuzzy_gff).2) := by
  unfold CollapseIsoformsRunner.run at hrun
  split at hrun
  · exact absurd hrun (by simp)
  · split at hrun
    · exact absurd hrun (by simp)
    · split at hrun
      case isTrue hsh =>
        have hf : 0 < cfg.max_fuzzy_junction := by
          simpa [shall_collapse_fuzzy_junctions] using hsh
        simp only [] at hrun
        split at hrun
        · exact absurd hrun (by simp)
        · simp only [Except.ok.injEq] at hrun
          subst hrun
          refine ⟨fun hc => absurd hf hc, fun _ => ?_⟩
          exact ⟨rfl, rfl, by simp, rfl, rfl, rfl⟩
      case isFalse hsh =>
        have hf : ¬ 0 < cfg.max_fuzzy_junction := by
          simpa [shall_collapse_fuzzy_junctions] using hsh
        split at hrun
        · exact absurd hrun (by simp)
        · simp only [Except.ok.injEq] at hrun
          subst hrun
          refine ⟨fun _ => ⟨rfl, rfl, by simp, rfl, rfl, rfl⟩,
            fun hc => absurd hc hf⟩

/-- Evaluation witness for `claim_C1_fuzzy_gate`: a successful run on an
empty stream with fuzzy merging disabled, and one with it enabled. -/
theorem claim_C1_fuzzy_gate_witness :
    ((⟨[.validateStage, .branchStage, .pickStage], [], [], [], [],
        none, none, [], [], [], []⟩ : RunnerResult).good_fuzzy_gff = none ∧
      (⟨[.validateStage, .branchStage, .pickStage], [], [], [], [],
        none, none, [], [], [], []⟩ : RunnerResult).fuzzy_group = none ∧
      Stage.fuzzyStage ∉ (⟨[.validateStage, .branchStage, .pickStage],
        [], [], [], [], none, none, [], [], [], []⟩ : RunnerResult).trace ∧
      (⟨[.validateStage, .branchStage, .pickStage], [], [], [], [],
        none, none, [], [], [], []⟩ : RunnerResult).good_gff =
        (⟨[.validateStage, .branchStage, .pickStage], [], [], [], [],
          none, none, [], [], [], []⟩ : RunnerResult).good_unfuzzy_gff ∧
      (⟨[.validateStage, .branchStage, .pickStage], [], [], [], [],
        none, none, [], [], [], []⟩ : RunnerResult).gff =
        (⟨[.validateStage, .branchStage, .pickStage], [], [], [], [],
          none, none, [], [], [], []⟩ : RunnerResult).good_unfuzzy_gff ∧
      (⟨[.validateStage, .branchStage, .pickStage], [], [], [], [],
        none, none, [], [], [], []⟩ : RunnerResult).group =
        (⟨[.validateStage, .branchStage, .pickStage], [], [], [], [],
          none, none, [], [], [], []⟩ : RunnerResult).unfuzzy_group) ∧
    Stage.fuzzyStage ∈ (⟨[.validateStage, .branchStage, .fuzzyStage,
      .pickStage], [], [], [], [], some [], some [], [], [], [],
      []⟩ : RunnerResult).trace := by
  constructor
  · exact (claim_C1_fuzzy_gate ⟨true, true, [], 0, 0, 1, 0, true, false⟩ [] []
      ⟨[.validateStage, .branchStage, .pickStage], [], [], [], [],
        none, none, [], [], [], []⟩ rfl).1 (by decide)
  · exact ((claim_C1_fuzzy_gate ⟨true, true, [], 0, 0, 1, 3, true, false⟩ [] []
      ⟨[.validateStage, .branchStage, .fuzzyStage, .pickStage], [], [], [],
        [], some [], some [], [], [], [], []⟩ rfl).2
      (by decide)).2.2.1

/-- C7: `CollapseIsoformsRunner.run` executes the pipeline stages in strict
left-to-right order — validation, then unfuzzy collapsing of the whole
stream (`Branch.run`), then (when enabled) fuzzy-junction merging, then
representative picking; the unfuzzy artifacts are exactly `Branch.run`'s
outputs handed downstream, and the representative picker reads only the
final (possibly fuzzy-merged) good group content. -/
theorem claim_C7_stage_order (cfg : RunnerConfig) (rs : List SamRecord)
    (env : List RepMember) (out : RunnerResult)
    (hrun : CollapseIsoformsRunner.run cfg rs env = .ok out) :
    out.trace = (if shall_collapse_fuzzy_junctions cfg then
        [Stage.validateStage, Stage.branchStage, Stage.fuzzyStage,
          Stage.pickStage]
      else [Stage.validateStage, Stage.branchStage, Stage.pickStage]) ∧
    validate_inputs cfg = .ok () ∧
    (∃ bout, Branch.run cfg.min_aln_coverage cfg.min_aln_identity
        cfg.min_flnc_coverage cfg.allow_extra_5exon cfg.skip_5_exon_alt 100 rs
        = .ok bout ∧
      out.good_unfuzzy_gff = bout.goodCands ∧
      out.bad_unfuzzy_gff = bout.badCands ∧
      out.unfuzzy_group = bout.groups ∧
      out.ignored_ids = bout.ignored) ∧
    pick_rep env (pick_least_err_instead cfg) out.group = .ok out.rep := by
  have hval : validate_inputs cfg = .ok () := by
    unfold CollapseIsoformsRunner.run at hrun
    match h : validate_inputs cfg with
    | .ok () => rfl
    | .error e => rw [h] at hrun; exact absurd hrun (by simp)
  unfold CollapseIsoformsRunner.run at hrun
  split at hrun
  · exact absurd hrun (by simp)
  · split at hrun
    · exact absurd hrun (by simp)
    · rename_i hsplit bout hb
      split at hrun
      case isTrue hsh =>
        simp only [] at hrun
        split at hrun
        · exact absurd hrun (by simp)
        · rename_i reps hp
          simp only [Except.ok.injEq] at hrun
          subst hrun
          exact ⟨by simp [hsh], hval, ⟨bout, hb, rfl, rfl, rfl, rfl⟩, hp⟩
      case isFalse hsh =>
        split at hrun
        · exact absurd hrun (by simp)
        · rename_i reps hp
          simp only [Except.ok.injEq] at hrun
          subst hrun
          exact ⟨by simp [hsh], hval, ⟨bout, hb, rfl, rfl, rfl, rfl⟩, hp⟩

/-- Evaluation witness for `claim_C7_stage_order`: the stage order of a
successful fuzzy-enabled run on an empty stream. -/
theorem claim_C7_stage_order_witness :
    (⟨[.validateStage, .branchStage, .fuzzyStage, .pickStage], [], [], [],
      [], some [], some [], [], [], [], []⟩ : RunnerResult).trace =
      (if shall_collapse_fuzzy_junctions
          ⟨true, true, [], 0, 0, 1, 3, true, false⟩ then
        [Stage.validateStage, Stage.branchStage, Stage.fuzzyStage,
          Stage.pickStage]
      else [Stage.validateStage, Stage.branchStage, Stage.pickStage]) :=
  (claim_C7_stage_order ⟨true, true, [], 0, 0, 1, 3, true, false⟩ [] []
    ⟨[.validateStage, .branchStage, .fuzzyStage, .pickStage], [], [], [],
      [], some [], some [], [], [], [], []⟩ rfl).1

/-- C3: `CollapseIsoformsRunner.run` selects the representative-picking
policy solely from `allow_extra_5exon`: when it is true the flag
`pick_least_err_instead` is false and the picker uses the longest-member
policy (greatest query length, ties broken by lexicographically smallest
query id), and when it is false the flag is true and the picker uses the
least-discrepancy policy (smallest discrepancy, same tie-break).  The
chosen representative belongs to the group, and — `pickBest` being a
function of the group and the policy alone — the representative is the same
on every run. -/
theorem claim_C3_pick_policy (cfg : RunnerConfig) :
    (cfg.allow_extra_5exon = true → pick_least_err_instead cfg = false) ∧
    (cfg.allow_extra_5exon = false → pick_least_err_instead cfg = true) ∧
    (∀ ms r, pickBest false ms = some r →
      r ∈ ms ∧ ∀ m ∈ ms,
        m.len ≤ r.len ∧ (m.len = r.len → strLt m.qid r.qid = false)) ∧
    (∀ ms r, pickBest true ms = some r →
      r ∈ ms ∧ ∀ m ∈ ms,
        r.err ≤ m.err ∧ (m.err = r.err → strLt m.qid r.qid = false)) := by
  refine ⟨fun h => by simp [pick_least_err_instead, h],
    fun h => by simp [pick_least_err_instead, h], ?_, ?_⟩
  · intro ms r hpick
    match ms, hpick with
    | m :: tail, hpick =>
      simp only [pickBest, Option.some.injEq] at hpick
      obtain ⟨hmem, hall⟩ := pickBest_foldl_spec false tail m
      rw [hpick] at hmem hall
      refine ⟨hmem, fun x hx => ?_⟩
      have := hall x hx
      rw [betterRep_longest_false] at this
      exact this
  · intro ms r hpick
    match ms, hpick with
    | m :: tail, hpick =>
      simp only [pickBest, Option.some.injEq] at hpick
      obtain ⟨hmem, hall⟩ := pickBest_foldl_spec true tail m
      rw [hpick] at hmem hall
      refine ⟨hmem, fun x hx => ?_⟩
      have := hall x hx
      rw [betterRep_leasterr_false] at this
      exact this

/-- Evaluation witness for `claim_C3_pick_policy`: on a concrete group with
a length tie the longest-first policy picks the lexicographically smallest
id, and on a discrepancy tie the least-discrepancy policy does too. -/
theorem claim_C3_pick_policy_witness :
    pick_least_err_instead ⟨true, true, [], 0, 0, 1, 0, true, false⟩ = false ∧
    (⟨"a", 5, 3⟩ : RepMember) ∈ [⟨"b", 5, 7⟩, ⟨"a", 5, 3⟩] ∧
    (⟨"b", 5, 7⟩ : RepMember).len ≤ (⟨"a", 5, 3⟩ : RepMember).len ∧
    (⟨"a", 2, 1⟩ : RepMember).err ≤ (⟨"b", 9, 1⟩ : RepMember).err := by
  have h1 := (claim_C3_pick_policy
    ⟨true, true, [], 0, 0, 1, 0, true, false⟩).1 rfl
  have h2 := (claim_C3_pick_policy
    ⟨true, true, [], 0, 0, 1, 0, true, false⟩).2.2.1
    [⟨"b", 5, 7⟩, ⟨"a", 5, 3⟩] ⟨"a", 5, 3⟩ (by decide)
  have h3 := (claim_C3_pick_policy
    ⟨true, true, [], 0, 0, 1, 0, true, false⟩).2.2.2
    [⟨"b", 9, 1⟩, ⟨"a", 2, 1⟩] ⟨"a", 2, 1⟩ (by decide)
  exact ⟨h1, h2.1, (h2.2 ⟨"b", 5, 7⟩ (by decide)).1,
    (h3.2 ⟨"b", 9, 1⟩ (by decide)).1⟩

/-- C5: for every input record whose (reference id, reference start) key is
smaller than that of the previously emitted record, the alignment stream
reader raises `UnsortedInputError` and does not silently reorder or
mis-group — whenever the keys of the records that pass the filter are not
non-decreasing the whole run aborts with the error, and a successful run
certifies the emitted keys were sorted. -/
theorem claim_C5_unsorted (mc mi : ℚ) (rs : List SamRecord) :
    (keysSorted (emittedKeys mc mi rs) = false →
      iter_gmap_sam mc mi rs = .error .UnsortedInputError) ∧
    (∀ out, iter_gmap_sam mc mi rs = .ok out →
      keysSorted (emittedKeys mc mi rs) = true) := by
  constructor
  · intro h
    exact (readAux_error_iff mc mi rs none none).mpr h
  · intro out hout
    rcases hs : keysSorted (emittedKeys mc mi rs) with _ | _
    · exfalso
      have herr : iter_gmap_sam mc mi rs = .error .UnsortedInputError :=
        (readAux_error_iff mc mi rs none none).mpr hs
      rw [herr] at hout
      exact absurd hout (by simp)
    · rfl

/-- Evaluation witness for `claim_C5_unsorted`: two records on the same
reference with descending starts abort the reader. -/
theorem claim_C5_unsorted_witness :
    iter_gmap_sam 0 0
      [⟨"q1", "chr1", true, 100, 200, [(100, 200)], 1, 1⟩,
       ⟨"q2", "chr1", true, 50, 80, [(50, 80)], 1, 1⟩]
      = .error .UnsortedInputError :=
  (claim_C5_unsorted 0 0
    [⟨"q1", "chr1", true, 100, 200, [(100, 200)], 1, 1⟩,
     ⟨"q2", "chr1", true, 50, 80, [(50, 80)], 1, 1⟩]).1 (by decide)

/-- C6: every input record with coverage below `min_aln_coverage` or
identity below `min_aln_identity` is appended, in encounter order, to the
ignored-id output and excluded from all overlap groups; this is not an
error — the run continues — and such a record participates in no
downstream candidate or group: every group record passed the filter, and
every member of every `Branch.run` candidate is the query id of a record
that passed. -/
theorem claim_C6_filtered (mc mi : ℚ) (rs : List SamRecord) :
    (∀ out, iter_gmap_sam mc mi rs = .ok out →
      out.ignored =
        (rs.filter (fun r => !passesFilter mc mi r)).map SamRecord.qID ∧
      ∀ g ∈ out.groups, ∀ x ∈ g,
        passesFilter mc mi x = true ∧ x ∈ rs) ∧
    (∀ (covT : Nat) (a5 s5 : Bool) (tol : Nat) (bout : BranchOut),
      Branch.run mc mi covT a5 s5 tol rs = .ok bout →
      bout.ignored =
        (rs.filter (fun r => !passesFilter mc mi r)).map SamRecord.qID ∧
      ∀ cand ∈ bout.cands, ∀ q ∈ cand.members,
        ∃ r ∈ rs, passesFilter mc mi r = true ∧ r.qID = q) := by
  constructor
  · intro out hout
    obtain ⟨hig, hgr⟩ := readAux_ok_spec mc mi rs none none out hout
      (by simp [ogMembers])
    refine ⟨hig, fun g hg x hx => ?_⟩
    obtain ⟨hp, hsrc⟩ := hgr g hg x hx
    refine ⟨hp, ?_⟩
    rcases hsrc with h | h
    · exact h
    · simp [ogMembers] at h
  · intro covT a5 s5 tol bout hb
    unfold Branch.run at hb
    split at hb
    · exact absurd hb (by simp)
    · rename_i out hi
      simp only [Except.ok.injEq] at hb
      subst hb
      obtain ⟨hig, hgr⟩ := readAux_ok_spec mc mi rs none none out hi
        (by simp [ogMembers])
      refine ⟨hig, fun cand hcand q hq => ?_⟩
      obtain ⟨g, hgmem, _, c, _, hcoll⟩ :=
        branchLoop_mem covT a5 s5 tol _ 1 cand hcand
      obtain ⟨cl, hcl, hmem, _, _, _⟩ :=
        collapse_sam_records_mem c covT a5 s5 tol g cand hcoll
      rw [hmem] at hq
      obtain ⟨r, hr, hrq⟩ := buildClasses_members a5 s5 tol g cl hcl q hq
      obtain ⟨g0, hg0, hsub⟩ := mem_strand_flatten out.groups g hgmem
      obtain ⟨hp, hsrc⟩ := hgr g0 hg0 r (hsub r hr)
      refine ⟨r, ?_, hp, hrq⟩
      rcases hsrc with h | h
      · exact h
      · simp [ogMembers] at h

/-- Evaluation witness for `claim_C6_filtered`: with coverage threshold 1 a
zero-coverage record is listed in the ignored output of a successful run
while the passing record is grouped. -/
theorem claim_C6_filtered_witness :
    (⟨[[⟨"q1", "chr1", true, 100, 200, [(100, 200)], 1, 1⟩]],
        ["q2"]⟩ : ReaderOut).ignored =
      ([⟨"q1", "chr1", true, 100, 200, [(100, 200)], 1, 1⟩,
        ⟨"q2", "chr1", true, 100, 150, [(100, 150)], 0, 1⟩].filter
          (fun r => !passesFilter 1 0 r)).map SamRecord.qID :=
  ((claim_C6_filtered 1 0
    [⟨"q1", "chr1", true, 100, 200, [(100, 200)], 1, 1⟩,
     ⟨"q2", "chr1", true, 100, 150, [(100, 150)], 0, 1⟩]).1
    ⟨[[⟨"q1", "chr1", true, 100, 200, [(100, 200)], 1, 1⟩]], ["q2"]⟩
    rfl).1

/-- C4: candidate ids are strictly increasing in emission order —
`Branch.run` assigns ids from a counter starting at 1, advanced in the
order the overlap groups arrive from the sorted stream and then in
discovery order within a group: the emitted id sequence is lexicographically
strictly increasing, every id component is at least 1, and the first
emitted candidate carries id `(1, 1)`; `Branch.run` being a pure function
of its input and configuration, this sequence is reproduced exactly on
every run. -/
theorem claim_C4_ids (mc mi : ℚ) (covT : Nat) (a5 s5 : Bool) (tol : Nat)
    (rs : List SamRecord) (bout : BranchOut)
    (hb : Branch.run mc mi covT a5 s5 tol rs = .ok bout) :
    List.Pairwise (fun a b : Candidate => idxLt a.idx b.idx) bout.cands ∧
    (∀ cand ∈ bout.cands, 1 ≤ cand.idx.1 ∧ 1 ≤ cand.idx.2) ∧
    (∀ cand, bout.cands.head? = some cand → cand.idx = (1, 1)) := by
  unfold Branch.run at hb
  split at hb
  · exact absurd hb (by simp)
  · simp only [Except.ok.injEq] at hb
    subst hb
    refine ⟨branchLoop_pairwise covT a5 s5 tol _ 1, fun cand hcand => ?_,
      fun cand h => branchLoop_head covT a5 s5 tol _ 1 cand h⟩
    refine ⟨branchLoop_fst_ge covT a5 s5 tol _ 1 cand hcand, ?_⟩
    obtain ⟨g, _, _, c, _, hcoll⟩ :=
      branchLoop_mem covT a5 s5 tol _ 1 cand hcand
    obtain ⟨_, _, _, _, _, hsnd⟩ :=
      collapse_sam_records_mem c covT a5 s5 tol g cand hcoll
    exact hsnd

/-- Evaluation witness for `claim_C4_ids`: a three-record run emits
candidates with the strictly increasing ids (1,1), (2,1). -/
theorem claim_C4_ids_witness :
    List.Pairwise (fun a b : Candidate => idxLt a.idx b.idx)
      [⟨(1, 1), "chr1", true, [(100, 200)], ["q1", "q2"], true⟩,
       ⟨(2, 1), "chr1", true, [(300, 400)], ["q3"], false⟩] :=
  (claim_C4_ids 0 0 2 true false 100
    [⟨"q1", "chr1", true, 100, 200, [(100, 200)], 1, 1⟩,
     ⟨"q2", "chr1", true, 100, 200, [(100, 200)], 1, 1⟩,
     ⟨"q3", "chr1", true, 300, 400, [(300, 400)], 1, 1⟩]
    ⟨[⟨(1, 1), "chr1", true, [(100, 200)], ["q1", "q2"], true⟩,
      ⟨(2, 1), "chr1", true, [(300, 400)], ["q3"], false⟩], []⟩ rfl).1

/-- C2: for every overlap group processed by the unfuzzy collapsing engine,
a candidate is good exactly when its member count is at least
`cov_threshold` (which `CollapseIsoformsRunner` passes as
`min_flnc_coverage`) — in particular a member count exactly equal to the
threshold is good — and both kinds are emitted: good candidates go to the
good stream and the group file, bad candidates go to the bad stream only. -/
theorem claim_C2_threshold (cuff covT : Nat) (a5 s5 : Bool) (tol : Nat)
    (recs : List SamRecord) (o : BranchOut) :
    (∀ cand ∈ collapse_sam_records cuff covT a5 s5 tol recs,
      (cand.good = true ↔ covT ≤ cand.members.length)) ∧
    (∀ cand ∈ o.cands, cand.good = true →
      cand ∈ o.goodCands ∧ cand ∉ o.badCands) ∧
    (∀ cand ∈ o.cands, cand.good = false →
      cand ∈ o.badCands ∧ cand ∉ o.goodCands) ∧
    o.groups = o.goodCands.map (fun c => (c.idx, c.members)) := by
  refine ⟨fun cand hc => ?_, fun cand hc hg => ⟨?_, ?_⟩,
    fun cand hc hg => ⟨?_, ?_⟩, rfl⟩
  · obtain ⟨cl, _, hm, hgood, _, _⟩ :=
      collapse_sam_records_mem cuff covT a5 s5 tol recs cand hc
    rw [hgood, hm]
    simp
  · exact List.mem_filter.mpr ⟨hc, by simp [hg]⟩
  · intro hbad
    have := (List.mem_filter.mp hbad).2
    simp [hg] at this
  · exact List.mem_filter.mpr ⟨hc, by simp [hg]⟩
  · intro hgood
    have := (List.mem_filter.mp hgood).2
    simp [hg] at this

/-- Evaluation witness for `claim_C2_threshold`: with `cov_threshold = 2` a
two-member candidate sits exactly at the boundary and is good, and a
one-member bad candidate is routed to the bad stream only. -/
theorem claim_C2_threshold_witness :
    ((⟨(1, 1), "chr1", true, [(100, 200)], ["q1", "q2"], true⟩ :
        Candidate).good = true ↔
      2 ≤ (⟨(1, 1), "chr1", true, [(100, 200)], ["q1", "q2"], true⟩ :
        Candidate).members.length) ∧
    (⟨(1, 1), "chr1", true, [(300, 400)], ["q3"], false⟩ : Candidate) ∈
      (⟨[⟨(1, 1), "chr1", true, [(300, 400)], ["q3"], false⟩], []⟩ :
        BranchOut).badCands ∧
    (⟨(1, 1), "chr1", true, [(300, 400)], ["q3"], false⟩ : Candidate) ∉
      (⟨[⟨(1, 1), "chr1", true, [(300, 400)], ["q3"], false⟩], []⟩ :
        BranchOut).goodCands := by
  refine ⟨?_, ?_⟩
  · exact (claim_C2_threshold 1 2 true false 100
      [⟨"q1", "chr1", true, 100, 200, [(100, 200)], 1, 1⟩,
       ⟨"q2", "chr1", true, 100, 200, [(100, 200)], 1, 1⟩]
      ⟨[], []⟩).1
      ⟨(1, 1), "chr1", true, [(100, 200)], ["q1", "q2"], true⟩ (by decide)
  · exact (claim_C2_threshold 1 2 true false 100 [] 
      ⟨[⟨(1, 1), "chr1", true, [(300, 400)], ["q3"], false⟩], []⟩).2.2.1
      ⟨(1, 1), "chr1", true, [(300, 400)], ["q3"], false⟩
      (List.mem_cons_self _ _) rfl

/-- C8: every collapsed candidate ever created has at least one member —
`Branch.run` collapses only non-empty record groups, so a zero-member group
never reaches the representative picker; the picker raises
`EmptyGroupError` on a zero-member group, and on the groups `Branch.run`
actually emits that error is unreachable. -/
theorem claim_C8_nonempty (mc mi : ℚ) (covT : Nat) (a5 s5 : Bool)
    (tol : Nat) (rs : List SamRecord) (bout : BranchOut)
    (env : List RepMember) (flag : Bool)
    (hb : Branch.run mc mi covT a5 s5 tol rs = .ok bout) :
    (∀ cand ∈ bout.cands, 1 ≤ cand.members.length) ∧
    (∀ gid : Nat × Nat,
      pick_rep_one env flag (gid, []) = .error .EmptyGroupError) ∧
    (∀ g ∈ bout.groups,
      pick_rep_one env flag g ≠ .error .EmptyGroupError) := by
  unfold Branch.run at hb
  split at hb
  · exact absurd hb (by simp)
  · rename_i out hi
    simp only [Except.ok.injEq] at hb
    subst hb
    have hne : ∀ cand ∈ branchLoop covT a5 s5 tol
        ((out.groups.map strandGroups).flatten) 1, cand.members ≠ [] := by
      intro cand hcand
      obtain ⟨g, _, _, c, _, hcoll⟩ :=
        branchLoop_mem covT a5 s5 tol _ 1 cand hcand
      obtain ⟨cl, hcl, hm, _, _, _⟩ :=
        collapse_sam_records_mem c covT a5 s5 tol g cand hcoll
      rw [hm]
      exact buildClasses_nonempty a5 s5 tol g cl hcl
    refine ⟨fun cand hc => List.length_pos.mpr (hne cand hc),
      fun gid => rfl, fun g hg => ?_⟩
    obtain ⟨c, hcmem, rfl⟩ := List.mem_map.mp hg
    have hcc := (List.mem_filter.mp hcmem).1
    have hme := hne c hcc
    rcases hm2 : c.members with _ | ⟨q, qs⟩
    · exact absurd hm2 hme
    · exact pick_rep_one_cons_ne_empty env flag c.idx q qs

/-- Evaluation witness for `claim_C8_nonempty`: the candidates of a
concrete run all have a member, and the picker on an explicit zero-member
group raises the empty-group error. -/
theorem claim_C8_nonempty_witness :
    1 ≤ (⟨(1, 1), "chr1", true, [(100, 200)], ["q1", "q2"], true⟩ :
      Candidate).members.length ∧
    pick_rep_one [] true ((5, 5), []) = .error .EmptyGroupError := by
  have h := claim_C8_nonempty 0 0 2 true false 100
    [⟨"q1", "chr1", true, 100, 200, [(100, 200)], 1, 1⟩,
     ⟨"q2", "chr1", true, 100, 200, [(100, 200)], 1, 1⟩,
     ⟨"q3", "chr1", true, 300, 400, [(300, 400)], 1, 1⟩]
    ⟨[⟨(1, 1), "chr1", true, [(100, 200)], ["q1", "q2"], true⟩,
      ⟨(2, 1), "chr1", true, [(300, 400)], ["q3"], false⟩], []⟩ [] true rfl
  exact ⟨h.1 ⟨(1, 1), "chr1", true, [(100, 200)], ["q1", "q2"], true⟩
    (List.mem_cons_self _ _), h.2.1 (5, 5)⟩
